import Mathlib

/-!
Verification of the transaction packing, size-estimation, lookup-table
selection, signing and submission logic of the data-source repository.

Account identities (base58 public keys in the source) are modelled as
natural numbers.  JavaScript `Set` objects are modelled as duplicate-free
lists in insertion order (`Set.add` appends an element not yet present,
`Set.delete` filters, iteration follows list order), so that cardinalities
and iteration order match the source exactly.
-/

namespace DataSource

/-- neverthrow-style result value, as used by the source (`ok` / `err`). -/
inductive Result (α ε : Type) where
  | ok (value : α)
  | err (error : ε)
deriving DecidableEq, Repr

def MAX_TRANSACTION_SIZE : Nat := 1232

def MAX_UNIQUE_KEYS_COUNT : Nat := 128

/-- Function `lengthToCompact16size` from the source: 1 byte when the length fits in
7 bits, otherwise 2 bytes. -/
def lengthToCompact16size (size : Nat) : Nat :=
  if size > 0x7f then 2 else 1

structure AccountMeta where
  pubkey : Nat
  isSigner : Bool
  isWritable : Bool
deriving DecidableEq, Repr

structure TransactionInstruction where
  programId : Nat
  keys : List AccountMeta
  data : List Nat
deriving DecidableEq, Repr

structure InstructionWithSigners where
  instruction : TransactionInstruction
  signers : List Nat
deriving DecidableEq, Repr

structure AddressLookupTableAccount where
  key : Nat
  addresses : List Nat
deriving DecidableEq, Repr

/-- JavaScript `Set.add`: append the key when it is not yet present. -/
def setAdd (s : List Nat) (k : Nat) : List Nat :=
  if k ∈ s then s else s ++ [k]

/-- A JavaScript `Set` built by adding the elements of a list in order. -/
def setOfList (ks : List Nat) : List Nat :=
  ks.foldl setAdd []

/-- Function `containedInLUTCount` from the source: the number of keys contained in the lookup table
together with the set of keys that are not. -/
def containedInLUTCount (keys : List Nat) (lookupTableAddresses : List Nat) :
    Nat × List Nat :=
  ((keys.filter (fun k => k ∈ lookupTableAddresses)).length,
   keys.filter (fun k => k ∉ lookupTableAddresses))

structure TransactionSize where
  size : Nat
  lookupTables : List AddressLookupTableAccount
  uniqueKeyCount : Nat
deriving DecidableEq, Repr

structure StaticAccountSize where
  staticSize : Nat
  staticAccounts : Nat
deriving DecidableEq, Repr

/-- Function `totalSize` from the source: serialized size of a transaction given the static part, the
number of lookup tables, the number of table-resolved accounts, and the
remaining static accounts. -/
def totalSize (s : StaticAccountSize) (lutCount includedAccounts remainingStatic : Nat) :
    Nat :=
  s.staticSize + 34 * lutCount + includedAccounts +
    lengthToCompact16size (s.staticAccounts + remainingStatic) +
    (s.staticAccounts + remainingStatic) * 32

/-- The sequence of signer keys in encounter order: the funder first, then
every `isSigner` account key of every instruction. -/
def signerKeySeq (instructions : List InstructionWithSigners) (funder : Nat) : List Nat :=
  funder :: instructions.flatMap
    (fun i => (i.instruction.keys.filter (·.isSigner)).map (·.pubkey))

def uniqueSigners (instructions : List InstructionWithSigners) (funder : Nat) : List Nat :=
  setOfList (signerKeySeq instructions funder)

def programIdSeq (instructions : List InstructionWithSigners) : List Nat :=
  instructions.map (·.instruction.programId)

def programIds (instructions : List InstructionWithSigners) : List Nat :=
  setOfList (programIdSeq instructions)

/-- Every account key referenced by some instruction, in encounter order. -/
def referencedKeySeq (instructions : List InstructionWithSigners) : List Nat :=
  instructions.flatMap (fun i => i.instruction.keys.map (·.pubkey))

/-- Referenced keys with signers and top-level program ids removed. -/
def lutEligibleKeys (instructions : List InstructionWithSigners) (funder : Nat) : List Nat :=
  ((setOfList (referencedKeySeq instructions)).filter
      (fun k => k ∉ uniqueSigners instructions funder)).filter
    (fun k => k ∉ programIds instructions)

/-- The set `new Set([...uniqueSigners, ...programIds])` from the source. -/
def ineligibleKeys (instructions : List InstructionWithSigners) (funder : Nat) : List Nat :=
  setOfList (uniqueSigners instructions funder ++ programIds instructions)

/-- Per-instruction byte contribution summed over all instructions. -/
def ixSizes (instructions : List InstructionWithSigners) : Nat :=
  (instructions.map (fun i =>
      1 + lengthToCompact16size i.instruction.keys.length + i.instruction.keys.length +
        lengthToCompact16size i.instruction.data.length + i.instruction.data.length)).sum

def staticSizeOf (instructions : List InstructionWithSigners) (funder : Nat) : Nat :=
  lengthToCompact16size (uniqueSigners instructions funder).length +
    (uniqueSigners instructions funder).length * 64 +
    3 + 32 + 1 +
    lengthToCompact16size instructions.length +
    ixSizes instructions + 1

def staticAccountSizeOf (instructions : List InstructionWithSigners) (funder : Nat) :
    StaticAccountSize :=
  { staticSize := staticSizeOf instructions funder,
    staticAccounts := (ineligibleKeys instructions funder).length }

/-- The size the transaction would have with no lookup table applied. -/
def baselineSize (instructions : List InstructionWithSigners) (funder : Nat) : Nat :=
  totalSize (staticAccountSizeOf instructions funder) 0 0
    (lutEligibleKeys instructions funder).length

def uniqueKeyCountOf (instructions : List InstructionWithSigners) (funder : Nat) : Nat :=
  (ineligibleKeys instructions funder).length + (lutEligibleKeys instructions funder).length

/-- The best state tracked by the candidate scan of `findBestLookupTables`. -/
structure BestState where
  bestSize : Nat
  bestRemaining : List Nat
  bestIncluded : Nat
  bestLutIndex : Nat
deriving DecidableEq, Repr

inductive ScanResult where
  | eager (lut : AddressLookupTableAccount) (txnSize newIncluded : Nat)
      (remainingUnique : List Nat)
  | scanned (best : BestState)
deriving DecidableEq, Repr

/-- Projected size after additionally applying the candidate table `lutSet`. -/
def projectedSize (s : StaticAccountSize) (lutCount includedAccounts : Nat)
    (remainingAccounts : List Nat) (lutSet : List Nat) : Nat :=
  totalSize s (lutCount + 1)
    (includedAccounts + (containedInLUTCount remainingAccounts lutSet).1)
    (containedInLUTCount remainingAccounts lutSet).2.length

/-- The `for (const [lutIndex, lut] of remainingLuts.entries())` loop of
`findBestLookupTables`: returns at the first candidate whose projected size is
strictly below the budget, otherwise tracks the best strictly improving
candidate seen so far. -/
def scanLuts (s : StaticAccountSize) (lutCount includedAccounts : Nat)
    (remainingAccounts : List Nat) :
    List (List Nat × AddressLookupTableAccount) → Nat → BestState → ScanResult
  | [], _, best => .scanned best
  | (lutSet, lutAccount) :: rest, lutIndex, best =>
    let res := containedInLUTCount remainingAccounts lutSet
    let newIncluded := includedAccounts + res.1
    let txnSize := totalSize s (lutCount + 1) newIncluded res.2.length
    if txnSize < MAX_TRANSACTION_SIZE then
      .eager lutAccount txnSize newIncluded res.2
    else if txnSize < best.bestSize then
      scanLuts s lutCount includedAccounts remainingAccounts rest (lutIndex + 1)
        ⟨txnSize, res.2, newIncluded, lutIndex⟩
    else
      scanLuts s lutCount includedAccounts remainingAccounts rest (lutIndex + 1) best

/-- Function `findBestLookupTables` from the source. -/
def findBestLookupTables (s : StaticAccountSize) (size lutCount includedAccounts : Nat)
    (remainingAccounts : List Nat) (usedLuts : List AddressLookupTableAccount)
    (remainingLuts : List (List Nat × AddressLookupTableAccount)) : TransactionSize :=
  if remainingLuts.length = 0 then
    { size := size, lookupTables := usedLuts,
      uniqueKeyCount := includedAccounts + remainingAccounts.length }
  else
    match scanLuts s lutCount includedAccounts remainingAccounts remainingLuts 0
        ⟨size, remainingAccounts, includedAccounts, 0⟩ with
    | .eager lutAccount txnSize newIncluded remainingUnique =>
      { size := txnSize, lookupTables := usedLuts ++ [lutAccount],
        uniqueKeyCount := newIncluded + remainingUnique.length }
    | .scanned best =>
      if size = best.bestSize then
        { size := size, lookupTables := usedLuts,
          uniqueKeyCount := includedAccounts + remainingAccounts.length }
      else if h : best.bestLutIndex < remainingLuts.length then
        findBestLookupTables s best.bestSize (lutCount + 1) best.bestIncluded
          best.bestRemaining
          (usedLuts ++ [(remainingLuts.get ⟨best.bestLutIndex, h⟩).2])
          (remainingLuts.eraseIdx best.bestLutIndex)
      else
        -- the scan only ever reports the index of an existing candidate
        { size := size, lookupTables := usedLuts,
          uniqueKeyCount := includedAccounts + remainingAccounts.length }
termination_by remainingLuts.length
decreasing_by
  rw [List.length_eraseIdx]
  simp only [h, if_true]
  omega

/-- Function `getTransactionSize` from the source. -/
def getTransactionSize (instructions : List InstructionWithSigners) (funder : Nat)
    (lookupTables : List (List Nat × AddressLookupTableAccount)) : TransactionSize :=
  if baselineSize instructions funder ≤ MAX_TRANSACTION_SIZE ∨ lookupTables.length = 0 then
    { size := baselineSize instructions funder, lookupTables := [],
      uniqueKeyCount := uniqueKeyCountOf instructions funder }
  else if uniqueKeyCountOf instructions funder > MAX_UNIQUE_KEYS_COUNT then
    { size := baselineSize instructions funder, lookupTables := [],
      uniqueKeyCount := uniqueKeyCountOf instructions funder }
  else
    findBestLookupTables (staticAccountSizeOf instructions funder)
      (baselineSize instructions funder) 0 0 (lutEligibleKeys instructions funder) []
      lookupTables

/-- Function `buildLookupTableSet` from the source: pair every lookup table with the set of its
addresses. -/
def buildLookupTableSet (lookupTables : List AddressLookupTableAccount) :
    List (List Nat × AddressLookupTableAccount) :=
  lookupTables.map (fun lut => (setOfList lut.addresses, lut))

/-- The `insert` array helper from the source. -/
def insertAt {α : Type} (arr : List α) (index : Nat) (newItem : α) : List α :=
  arr.take index ++ [newItem] ++ arr.drop index

structure InstructionsWithSignersAndLUTs where
  instructions : List InstructionWithSigners
  lookupTables : List AddressLookupTableAccount
deriving DecidableEq, Repr

/-- Function `deepCopyInstructions` from the source: rebuilds every instruction record field by field. -/
def deepCopyInstructions (x : InstructionsWithSignersAndLUTs) :
    InstructionsWithSignersAndLUTs :=
  { instructions := x.instructions.map (fun entry =>
      { entry with
        instruction :=
          { programId := entry.instruction.programId,
            keys := entry.instruction.keys.map
              (fun k => { pubkey := k.pubkey, isSigner := k.isSigner,
                          isWritable := k.isWritable }),
            data := entry.instruction.data.map id } }),
    lookupTables := x.lookupTables }

def beforeAfterTooBigMsg : String :=
  "Before and after instructions alone are too big to fit in transaction"

def beforeAfterTooManyKeysMsg : String :=
  "Before and after instructions alone have too many unique keys to fit in transaction"

def instructionTooLargeMsg (programId : Nat) : String :=
  "Instruction too large to fit in transaction: " ++ toString programId

def instructionTooManyAccountsMsg (programId : Nat) : String :=
  "Instruction has too many unique accounts to fit in transaction: " ++ toString programId

/-- The `for (const ix of instructionsWithSigners)` loop of
`buildDynamicTransactionsNoSigning`, together with the final emission of the
working batch. -/
def packLoop (funder : Nat)
    (lookupTableAddresses : List (List Nat × AddressLookupTableAccount))
    (beforeIxsWithSigners afterIxsWithSigners : List InstructionWithSigners)
    (maxInstructionCount : Nat) :
    List InstructionWithSigners → InstructionsWithSignersAndLUTs →
    List InstructionsWithSignersAndLUTs →
    Result (List InstructionsWithSignersAndLUTs) String
  | [], current, output =>
    if beforeIxsWithSigners.length + afterIxsWithSigners.length <
        current.instructions.length then
      .ok (output ++ [deepCopyInstructions current])
    else
      .ok output
  | ix :: rest, current, output =>
    let nextIxs := insertAt current.instructions
      (current.instructions.length - afterIxsWithSigners.length) ix
    let next := getTransactionSize nextIxs funder lookupTableAddresses
    if next.size > MAX_TRANSACTION_SIZE ∨ next.uniqueKeyCount > MAX_UNIQUE_KEYS_COUNT ∨
        nextIxs.length > maxInstructionCount then
      let output2 := output ++ [deepCopyInstructions current]
      let currentIxs := beforeIxsWithSigners ++ [ix] ++ afterIxsWithSigners
      let cur := getTransactionSize currentIxs funder lookupTableAddresses
      if cur.size > MAX_TRANSACTION_SIZE then
        .err (instructionTooLargeMsg ix.instruction.programId)
      else if cur.uniqueKeyCount > MAX_UNIQUE_KEYS_COUNT then
        .err (instructionTooManyAccountsMsg ix.instruction.programId)
      else
        packLoop funder lookupTableAddresses beforeIxsWithSigners afterIxsWithSigners
          maxInstructionCount rest
          { instructions := currentIxs, lookupTables := cur.lookupTables } output2
    else
      packLoop funder lookupTableAddresses beforeIxsWithSigners afterIxsWithSigners
        maxInstructionCount rest
        { instructions := nextIxs, lookupTables := next.lookupTables } output

/-- Function `buildDynamicTransactionsNoSigning` from the source, over instruction
lists whose asynchronous resolution has already happened. -/
def buildDynamicTransactionsNoSigning (instructionsWithSigners : List InstructionWithSigners)
    (funder : Nat) (beforeIxsWithSigners afterIxsWithSigners : List InstructionWithSigners)
    (lookupTables : List AddressLookupTableAccount) (maxInstructionCount : Nat) :
    Result (List InstructionsWithSignersAndLUTs) String :=
  let lookupTableAddresses := buildLookupTableSet lookupTables
  let scaffolding := beforeIxsWithSigners ++ afterIxsWithSigners
  let t := getTransactionSize scaffolding funder lookupTableAddresses
  if t.size > MAX_TRANSACTION_SIZE then
    .err beforeAfterTooBigMsg
  else if t.uniqueKeyCount > MAX_UNIQUE_KEYS_COUNT then
    .err beforeAfterTooManyKeysMsg
  else
    packLoop funder lookupTableAddresses beforeIxsWithSigners afterIxsWithSigners
      maxInstructionCount instructionsWithSigners
      { instructions := scaffolding, lookupTables := t.lookupTables } []

/-!  Signer coordination (`signTransactionReturns` in `compute.ts`).

Messages are modelled by the list of signer keys that have been applied to
them; `signAll` of a signer appends its key to every assigned message.
-/

/-- One entry of the `SignerMap`: a signer identity, whether its capability
requires an asynchronous round trip, and the set of transaction indices it
must sign.  The map itself is its list of entries in insertion order. -/
structure SignerEntry where
  key : Nat
  requiresAsync : Bool
  transactions : List Nat
deriving DecidableEq, Repr

/-- The indices selected by
`unsignedTransactions.map((tx, index) => ...).filter(({index}) => transactions.has(index))`. -/
def txsToSignIndices (n : Nat) (e : SignerEntry) : List Nat :=
  (List.range n).filter (fun i => i ∈ e.transactions)

/-- Write-back of the batched `signAll` call: every assigned message gets the
signer's key appended. -/
def applySignAll (k : Nat) (assigned : List Nat) (txs : List (List Nat)) :
    List (List Nat) :=
  txs.enum.map (fun p => if p.1 ∈ assigned then p.2 ++ [k] else p.2)

/-- The record of one invocation of a signer during a signing cycle. -/
structure SignCall where
  key : Nat
  requiresAsync : Bool
  indices : List Nat
deriving DecidableEq, Repr

/-- One `for (const signer of signers.values())` pass: signers whose
`requiresAsync()` equals `flag` perform their single batched `signAll` call. -/
def signPass (flag : Bool) :
    List SignerEntry → List (List Nat) → List (List Nat) × List SignCall
  | [], txs => (txs, [])
  | e :: rest, txs =>
    if e.requiresAsync = flag then
      let idxs := txsToSignIndices txs.length e
      let txs2 := applySignAll e.key idxs txs
      let r := signPass flag rest txs2
      (r.1, ⟨e.key, e.requiresAsync, idxs⟩ :: r.2)
    else
      signPass flag rest txs

/-- Function `signTransactionReturns` from the source: the asynchronous pass runs first, then the
local pass; the trace of signer invocations is returned alongside the signed
messages. -/
def signTransactionReturns (txs : List (List Nat)) (signers : List SignerEntry) :
    List (List Nat) × List SignCall :=
  let p1 := signPass true signers txs
  let p2 := signPass false signers p1.1
  (p2.1, p1.2 ++ p2.2)

/-!  Submission (`sendTransaction` in `compute.ts`). -/

inductive SendAction where
  | sendRawTransaction
  | startResendTimer
  | clearResendTimer
deriving DecidableEq, Repr

/-- The value of `connection.confirmTransaction`: a slot context and the
optional on-chain execution error (`result.value.err`). -/
structure ConfirmResponse where
  context : Nat
  errValue : Option Nat
deriving DecidableEq, Repr

/-- Function `sendTransaction` from the source: submit the raw bytes, start the periodic resend timer,
await confirmation inside `try ... finally clearInterval(interval)`, and turn
an on-chain execution failure into an `err` value.  The outcome of awaiting
confirmation is an `Except`: `.error` is a raised exception, which propagates
after the `finally` clause has cancelled the timer. -/
def sendTransaction (confirmOutcome : Except Nat ConfirmResponse) (signature : Nat) :
    List SendAction × Except Nat (Nat × Result Nat Nat) :=
  let started := [SendAction.sendRawTransaction, SendAction.startResendTimer]
  match confirmOutcome with
  | .error e => (started ++ [SendAction.clearResendTimer], .error e)
  | .ok result =>
    match result.errValue with
    | some e =>
      (started ++ [SendAction.clearResendTimer], .ok (result.context, .err e))
    | none =>
      (started ++ [SendAction.clearResendTimer], .ok (result.context, .ok signature))

/-!  Basic facts about the JavaScript-set model. -/

theorem mem_setAdd {s : List Nat} {k a : Nat} : a ∈ setAdd s k ↔ a ∈ s ∨ a = k := by
  unfold setAdd
  split
  · constructor
    · exact fun h => Or.inl h
    · rintro (h | rfl) <;> [exact h; assumption]
  · simp

theorem setAdd_nodup {s : List Nat} {k : Nat} (h : s.Nodup) : (setAdd s k).Nodup := by
  unfold setAdd
  split
  · exact h
  · simp_all [List.nodup_append]

theorem foldl_setAdd_nodup (l : List Nat) :
    ∀ s : List Nat, s.Nodup → (l.foldl setAdd s).Nodup := by
  induction l with
  | nil => exact fun s hs => hs
  | cons a l ih => exact fun s hs => ih (setAdd s a) (setAdd_nodup hs)

theorem setOfList_nodup (l : List Nat) : (setOfList l).Nodup :=
  foldl_setAdd_nodup l [] List.nodup_nil

theorem mem_foldl_setAdd (l : List Nat) :
    ∀ s a, a ∈ l.foldl setAdd s ↔ a ∈ s ∨ a ∈ l := by
  induction l with
  | nil => simp
  | cons b l ih =>
    intro s a
    rw [List.foldl_cons, ih, mem_setAdd]
    simp
    tauto

theorem mem_setOfList {l : List Nat} {a : Nat} : a ∈ setOfList l ↔ a ∈ l := by
  rw [setOfList, mem_foldl_setAdd]
  simp

theorem toFinset_setOfList (l : List Nat) : (setOfList l).toFinset = l.toFinset := by
  ext a
  simp [mem_setOfList]

theorem length_setOfList (l : List Nat) : (setOfList l).length = l.toFinset.card := by
  rw [← toFinset_setOfList, List.toFinset_card_of_nodup (setOfList_nodup l)]

/-!  List facts about the before/mid/after sandwich shape of batches. -/

/-- The instructions of a batch with the before/after scaffolding removed. -/
def stripScaffolding (beforeLen afterLen : Nat) (b : InstructionsWithSignersAndLUTs) :
    List InstructionWithSigners :=
  (b.instructions.drop beforeLen).take (b.instructions.length - beforeLen - afterLen)

theorem strip_sandwich {before mid after : List InstructionWithSigners}
    {b : InstructionsWithSignersAndLUTs}
    (hb : b.instructions = before ++ mid ++ after) :
    stripScaffolding before.length after.length b = mid := by
  unfold stripScaffolding
  rw [hb]
  simp only [List.append_assoc, List.drop_left, List.length_append]
  rw [show before.length + (mid.length + after.length) - before.length - after.length =
        mid.length by omega]
  exact List.take_left mid after

theorem insertAt_sandwich (before mid after : List InstructionWithSigners)
    (ix : InstructionWithSigners) :
    insertAt (before ++ mid ++ after) ((before ++ mid ++ after).length - after.length) ix =
      before ++ (mid ++ [ix]) ++ after := by
  unfold insertAt
  have hlen : (before ++ mid ++ after).length - after.length =
      before.length + mid.length := by
    simp only [List.length_append]
    omega
  rw [hlen]
  have htake : (before ++ mid ++ after).take (before.length + mid.length) =
      before ++ mid := by
    rw [List.append_assoc, List.take_append_eq_append_take,
      List.take_of_length_le (by omega),
      show before.length + mid.length - before.length = mid.length by omega,
      List.take_left mid after]
  have hdrop : (before ++ mid ++ after).drop (before.length + mid.length) = after := by
    rw [List.append_assoc, List.drop_append_eq_append_drop,
      List.drop_of_length_le (by omega),
      show before.length + mid.length - before.length = mid.length by omega,
      List.drop_left mid after]
    simp
  rw [htake, hdrop]
  simp

theorem deepCopyInstructions_eq (x : InstructionsWithSignersAndLUTs) :
    deepCopyInstructions x = x := by
  have hmeta :
      (fun k : AccountMeta =>
        ({ pubkey := k.pubkey, isSigner := k.isSigner, isWritable := k.isWritable } :
          AccountMeta)) = id := rfl
  cases x with
  | mk ins luts =>
    unfold deepCopyInstructions
    simp only [hmeta, List.map_id]
    congr 1
    conv_rhs => rw [← List.map_id ins]
    apply List.map_congr_left
    intro e _
    rfl

/-!  Facts about size estimation without lookup tables. -/

theorem getTransactionSize_nil (instructions : List InstructionWithSigners) (funder : Nat) :
    getTransactionSize instructions funder [] =
      { size := baselineSize instructions funder, lookupTables := [],
        uniqueKeyCount := uniqueKeyCountOf instructions funder } := by
  unfold getTransactionSize
  simp

theorem baselineSize_ge (instructions : List InstructionWithSigners) (funder : Nat) :
    32 * uniqueKeyCountOf instructions funder ≤ baselineSize instructions funder := by
  unfold baselineSize totalSize uniqueKeyCountOf staticAccountSizeOf
  simp only
  omega

/-- Without lookup tables a transaction with more than 128 unique keys always
exceeds the byte budget, so the key-count check of the packer can never be the
one that fires. -/
theorem no_luts_key_check_unreachable (instructions : List InstructionWithSigners)
    (funder : Nat)
    (hsize : (getTransactionSize instructions funder []).size ≤ MAX_TRANSACTION_SIZE) :
    (getTransactionSize instructions funder []).uniqueKeyCount ≤ MAX_UNIQUE_KEYS_COUNT := by
  rw [getTransactionSize_nil] at hsize ⊢
  have h := baselineSize_ge instructions funder
  simp only at hsize ⊢
  by_contra hk
  simp only [MAX_UNIQUE_KEYS_COUNT, not_le] at hk
  have : 32 * 129 ≤ baselineSize instructions funder := le_trans (by omega) h
  simp [MAX_TRANSACTION_SIZE] at hsize
  omega

theorem packLoop_err_no_luts (funder : Nat)
    (beforeIxs afterIxs : List InstructionWithSigners) (maxCount : Nat) :
    ∀ (rest : List InstructionWithSigners) (current : InstructionsWithSignersAndLUTs)
      (output : List InstructionsWithSignersAndLUTs) (m : String),
      packLoop funder [] beforeIxs afterIxs maxCount rest current output = .err m →
      ∃ p, m = instructionTooLargeMsg p := by
  intro rest
  induction rest with
  | nil =>
    intro current output m h
    simp only [packLoop] at h
    split at h <;> simp at h
  | cons ix rest ih =>
    intro current output m h
    simp only [packLoop] at h
    split at h
    · -- the tentative batch does not fit
      split at h
      · refine ⟨ix.instruction.programId, ?_⟩
        simp only [Result.err.injEq] at h
        exact h.symm
      · split at h
        · -- key-count overflow: impossible without lookup tables
          rename_i hsize hkeys
          exfalso
          have hle := no_luts_key_check_unreachable (beforeIxs ++ [ix] ++ afterIxs)
            funder (by omega)
          omega
        · exact ih _ _ _ h
    · exact ih _ _ _ h

/-- Without lookup tables, the packer can fail only with one of the two
size-overflow messages, never with a key-overflow message. -/
theorem buildDynamic_err_no_luts (instructions : List InstructionWithSigners)
    (funder : Nat) (beforeIxs afterIxs : List InstructionWithSigners) (maxCount : Nat)
    (m : String)
    (h : buildDynamicTransactionsNoSigning instructions funder beforeIxs afterIxs []
        maxCount = .err m) :
    m = beforeAfterTooBigMsg ∨ ∃ p, m = instructionTooLargeMsg p := by
  simp only [buildDynamicTransactionsNoSigning, buildLookupTableSet, List.map_nil] at h
  split at h
  · left
    simp only [Result.err.injEq] at h
    exact h.symm
  · split at h
    · rename_i hsize hkeys
      exfalso
      have hle := no_luts_key_check_unreachable (beforeIxs ++ afterIxs) funder (by omega)
      omega
    · right
      exact packLoop_err_no_luts funder beforeIxs afterIxs maxCount _ _ _ m h

/-- With an empty main instruction list the loop emits nothing: the final
working batch holds exactly the scaffolding and is not pushed. -/
theorem buildDynamic_nil_ok (funder : Nat)
    (beforeIxs afterIxs : List InstructionWithSigners)
    (lookupTables : List AddressLookupTableAccount) (maxCount : Nat)
    (hsize : (getTransactionSize (beforeIxs ++ afterIxs) funder
        (buildLookupTableSet lookupTables)).size ≤ MAX_TRANSACTION_SIZE)
    (hkeys : (getTransactionSize (beforeIxs ++ afterIxs) funder
        (buildLookupTableSet lookupTables)).uniqueKeyCount ≤ MAX_UNIQUE_KEYS_COUNT) :
    buildDynamicTransactionsNoSigning [] funder beforeIxs afterIxs lookupTables
      maxCount = .ok [] := by
  simp only [buildDynamicTransactionsNoSigning]
  rw [if_neg (by omega), if_neg (by omega)]
  simp only [packLoop]
  rw [if_neg (by simp only [List.length_append]; omega)]

/-!  The successful path of the packing loop: every instruction that fits on
its own keeps the loop running, and the emitted batches concatenate back to
the input stream. -/

theorem packLoop_ok_concat (funder : Nat)
    (lta : List (List Nat × AddressLookupTableAccount))
    (beforeIxs afterIxs : List InstructionWithSigners) (maxCount : Nat) :
    ∀ (rest : List InstructionWithSigners),
      (∀ ix ∈ rest,
        (getTransactionSize (beforeIxs ++ [ix] ++ afterIxs) funder lta).size ≤
            MAX_TRANSACTION_SIZE ∧
          (getTransactionSize (beforeIxs ++ [ix] ++ afterIxs) funder lta).uniqueKeyCount ≤
            MAX_UNIQUE_KEYS_COUNT) →
      ∀ (mid : List InstructionWithSigners) (current : InstructionsWithSignersAndLUTs)
        (output : List InstructionsWithSignersAndLUTs),
        current.instructions = beforeIxs ++ mid ++ afterIxs →
        ∃ out,
          packLoop funder lta beforeIxs afterIxs maxCount rest current output = .ok out ∧
            (out.map (stripScaffolding beforeIxs.length afterIxs.length)).flatten =
              (output.map (stripScaffolding beforeIxs.length afterIxs.length)).flatten ++
                mid ++ rest := by
  intro rest
  induction rest with
  | nil =>
    intro _ mid current output hcur
    by_cases hm : mid = []
    · subst hm
      refine ⟨output, ?_, by simp⟩
      simp only [packLoop]
      rw [if_neg (by rw [hcur]; simp only [List.length_append, List.length_nil]; omega)]
    · refine ⟨output ++ [deepCopyInstructions current], ?_, ?_⟩
      · simp only [packLoop]
        rw [if_pos (by
          rw [hcur]
          simp only [List.length_append, List.append_nil]
          have : 0 < mid.length := List.length_pos.mpr hm
          omega)]
      · rw [deepCopyInstructions_eq, List.map_append, List.flatten_append]
        simp [strip_sandwich hcur]
  | cons ix rest ih =>
    intro hfits mid current output hcur
    have hfit := hfits ix (List.mem_cons_self ix rest)
    have hfits' : ∀ i ∈ rest,
        (getTransactionSize (beforeIxs ++ [i] ++ afterIxs) funder lta).size ≤
            MAX_TRANSACTION_SIZE ∧
          (getTransactionSize (beforeIxs ++ [i] ++ afterIxs) funder lta).uniqueKeyCount ≤
            MAX_UNIQUE_KEYS_COUNT :=
      fun i hi => hfits i (List.mem_cons_of_mem ix hi)
    simp only [packLoop]
    rw [hcur, insertAt_sandwich]
    split
    · -- the tentative batch does not fit: emit and open a fresh minimal batch
      rw [if_neg (by omega), if_neg (by omega)]
      obtain ⟨out, hout, hflat⟩ := ih hfits' [ix]
        ⟨beforeIxs ++ [ix] ++ afterIxs,
          (getTransactionSize (beforeIxs ++ [ix] ++ afterIxs) funder lta).lookupTables⟩
        (output ++ [deepCopyInstructions current]) rfl
      refine ⟨out, hout, ?_⟩
      rw [hflat, deepCopyInstructions_eq, List.map_append, List.flatten_append]
      simp [strip_sandwich hcur]
    · -- the tentative batch fits: commit the splice
      obtain ⟨out, hout, hflat⟩ := ih hfits' (mid ++ [ix])
        ⟨beforeIxs ++ (mid ++ [ix]) ++ afterIxs,
          (getTransactionSize (beforeIxs ++ (mid ++ [ix]) ++ afterIxs) funder
            lta).lookupTables⟩
        output rfl
      refine ⟨out, hout, ?_⟩
      rw [hflat]
      simp

/-!  Budget invariants of every emitted batch. -/

/-- The byte, key and (scaffolding-adjusted) instruction-count bounds that
every emitted batch satisfies. -/
def withinBudgets (funder : Nat) (lta : List (List Nat × AddressLookupTableAccount))
    (beforeLen afterLen maxCount : Nat) (b : InstructionsWithSignersAndLUTs) : Prop :=
  (getTransactionSize b.instructions funder lta).size ≤ MAX_TRANSACTION_SIZE ∧
    (getTransactionSize b.instructions funder lta).uniqueKeyCount ≤ MAX_UNIQUE_KEYS_COUNT ∧
    b.instructions.length ≤ max maxCount (beforeLen + afterLen + 1)

instance (funder : Nat) (lta : List (List Nat × AddressLookupTableAccount))
    (beforeLen afterLen maxCount : Nat) (b : InstructionsWithSignersAndLUTs) :
    Decidable (withinBudgets funder lta beforeLen afterLen maxCount b) := by
  unfold withinBudgets
  infer_instance

theorem packLoop_ok_bounds (funder : Nat)
    (lta : List (List Nat × AddressLookupTableAccount))
    (beforeIxs afterIxs : List InstructionWithSigners) (maxCount : Nat) :
    ∀ (rest : List InstructionWithSigners) (current : InstructionsWithSignersAndLUTs)
      (output out : List InstructionsWithSignersAndLUTs),
      packLoop funder lta beforeIxs afterIxs maxCount rest current output = .ok out →
      withinBudgets funder lta beforeIxs.length afterIxs.length maxCount current →
      (∀ b ∈ output, withinBudgets funder lta beforeIxs.length afterIxs.length maxCount b) →
      ∀ b ∈ out, withinBudgets funder lta beforeIxs.length afterIxs.length maxCount b := by
  intro rest
  induction rest with
  | nil =>
    intro current output out h hcur houtput
    simp only [packLoop] at h
    split at h <;> simp only [Result.ok.injEq] at h <;> subst h
    · intro b hb
      rcases List.mem_append.mp hb with hb | hb
      · exact houtput b hb
      · rw [List.mem_singleton.mp hb, deepCopyInstructions_eq]
        exact hcur
    · exact houtput
  | cons ix rest ih =>
    intro current output out h hcur houtput
    simp only [packLoop] at h
    split at h
    · split at h
      · exact absurd h (by simp)
      · split at h
        · exact absurd h (by simp)
        · rename_i hsize hkeys
          refine ih _ _ _ h ⟨by dsimp only; omega, by dsimp only; omega, ?_⟩ ?_
          · dsimp only
            simp only [List.length_append, List.length_cons, List.length_nil]
            omega
          · intro b hb
            rcases List.mem_append.mp hb with hb | hb
            · exact houtput b hb
            · rw [List.mem_singleton.mp hb, deepCopyInstructions_eq]
              exact hcur
    · rename_i hfit
      rw [not_or, not_or] at hfit
      refine ih _ _ _ h
        ⟨by dsimp only; omega, by dsimp only; omega, by dsimp only; omega⟩ houtput

/-- Every batch of a successful pack satisfies the byte budget, the key
budget, and the instruction count bound `max maxCount (|before| + |after| + 1)`. -/
theorem buildDynamic_ok_bounds (instructions : List InstructionWithSigners)
    (funder : Nat) (beforeIxs afterIxs : List InstructionWithSigners)
    (lookupTables : List AddressLookupTableAccount) (maxCount : Nat)
    (out : List InstructionsWithSignersAndLUTs)
    (h : buildDynamicTransactionsNoSigning instructions funder beforeIxs afterIxs
        lookupTables maxCount = .ok out) :
    ∀ b ∈ out,
      withinBudgets funder (buildLookupTableSet lookupTables) beforeIxs.length
        afterIxs.length maxCount b := by
  simp only [buildDynamicTransactionsNoSigning] at h
  split at h
  · exact absurd h (by simp)
  · split at h
    · exact absurd h (by simp)
    · rename_i hsize hkeys
      refine packLoop_ok_bounds funder _ beforeIxs afterIxs maxCount _ _ _ _ h
        ⟨by dsimp only; omega, by dsimp only; omega, ?_⟩ (by simp)
      dsimp only
      simp only [List.length_append]
      omega

/-!  Error messages of the packer. -/

theorem tooLarge_ne_tooMany (p q : Nat) :
    instructionTooLargeMsg p ≠ instructionTooManyAccountsMsg q := by
  intro h
  have h2 : (instructionTooLargeMsg p).data = (instructionTooManyAccountsMsg q).data :=
    congrArg String.data h
  simp only [instructionTooLargeMsg, instructionTooManyAccountsMsg,
    String.data_append] at h2
  have h3 := congrArg (List.take 13) h2
  rw [List.take_append_of_le_length (by decide),
    List.take_append_of_le_length (by decide)] at h3
  exact absurd h3 (by decide)

/-- When the tentative splice fails and the fresh minimal batch violates the
byte budget, the loop returns the size-overflow error for the instruction's
program; when the minimal batch instead violates the key budget, it returns
the key-overflow error. -/
theorem packLoop_minimal_violation (funder : Nat)
    (lta : List (List Nat × AddressLookupTableAccount))
    (beforeIxs afterIxs : List InstructionWithSigners) (maxCount : Nat)
    (ix : InstructionWithSigners) (rest : List InstructionWithSigners)
    (current : InstructionsWithSignersAndLUTs)
    (output : List InstructionsWithSignersAndLUTs)
    (htent :
      (getTransactionSize
          (insertAt current.instructions (current.instructions.length - afterIxs.length) ix)
          funder lta).size > MAX_TRANSACTION_SIZE ∨
        (getTransactionSize
            (insertAt current.instructions (current.instructions.length - afterIxs.length) ix)
            funder lta).uniqueKeyCount > MAX_UNIQUE_KEYS_COUNT ∨
        (insertAt current.instructions (current.instructions.length - afterIxs.length)
            ix).length > maxCount) :
    ((getTransactionSize (beforeIxs ++ [ix] ++ afterIxs) funder lta).size >
        MAX_TRANSACTION_SIZE →
      packLoop funder lta beforeIxs afterIxs maxCount (ix :: rest) current output =
        .err (instructionTooLargeMsg ix.instruction.programId)) ∧
    ((getTransactionSize (beforeIxs ++ [ix] ++ afterIxs) funder lta).size ≤
        MAX_TRANSACTION_SIZE →
      (getTransactionSize (beforeIxs ++ [ix] ++ afterIxs) funder lta).uniqueKeyCount >
        MAX_UNIQUE_KEYS_COUNT →
      packLoop funder lta beforeIxs afterIxs maxCount (ix :: rest) current output =
        .err (instructionTooManyAccountsMsg ix.instruction.programId)) := by
  constructor
  · intro hsize
    simp only [packLoop]
    rw [if_pos htent, if_pos hsize]
  · intro hsize hkeys
    simp only [packLoop]
    rw [if_pos htent, if_neg (by omega), if_pos hkeys]

/-!  The eager-accept path of the candidate scan. -/

theorem scanLuts_eager_spec (s : StaticAccountSize) (lutCount includedAccounts : Nat)
    (remainingAccounts : List Nat) :
    ∀ (luts : List (List Nat × AddressLookupTableAccount)) (idx : Nat) (best : BestState)
      (i : Nat) (hi : i < luts.length),
      (∀ j (hj : j < i),
        ¬ projectedSize s lutCount includedAccounts remainingAccounts
            (luts.get ⟨j, lt_trans hj hi⟩).1 < MAX_TRANSACTION_SIZE) →
      projectedSize s lutCount includedAccounts remainingAccounts (luts.get ⟨i, hi⟩).1 <
        MAX_TRANSACTION_SIZE →
      scanLuts s lutCount includedAccounts remainingAccounts luts idx best =
        .eager (luts.get ⟨i, hi⟩).2
          (projectedSize s lutCount includedAccounts remainingAccounts (luts.get ⟨i, hi⟩).1)
          (includedAccounts + (containedInLUTCount remainingAccounts (luts.get ⟨i, hi⟩).1).1)
          (containedInLUTCount remainingAccounts (luts.get ⟨i, hi⟩).1).2 := by
  intro luts
  induction luts with
  | nil =>
    intro idx best i hi
    exact absurd hi (by simp)
  | cons p rest ih =>
    intro idx best i hi hpre heager
    obtain ⟨lutSet, lutAccount⟩ := p
    cases i with
    | zero =>
      simp only [List.get] at heager ⊢
      simp only [scanLuts]
      rw [show totalSize s (lutCount + 1)
          (includedAccounts + (containedInLUTCount remainingAccounts lutSet).1)
          (containedInLUTCount remainingAccounts lutSet).2.length =
        projectedSize s lutCount includedAccounts remainingAccounts lutSet from rfl]
      rw [if_pos heager]
    | succ i =>
      have h0 : ¬ projectedSize s lutCount includedAccounts remainingAccounts lutSet <
          MAX_TRANSACTION_SIZE := hpre 0 (Nat.succ_pos i)
      simp only [List.get] at heager ⊢
      simp only [scanLuts]
      rw [show totalSize s (lutCount + 1)
          (includedAccounts + (containedInLUTCount remainingAccounts lutSet).1)
          (containedInLUTCount remainingAccounts lutSet).2.length =
        projectedSize s lutCount includedAccounts remainingAccounts lutSet from rfl]
      rw [if_neg h0]
      have hi' : i < rest.length := Nat.lt_of_succ_lt_succ hi
      have hpre' : ∀ j (hj : j < i),
          ¬ projectedSize s lutCount includedAccounts remainingAccounts
              (rest.get ⟨j, lt_trans hj hi'⟩).1 < MAX_TRANSACTION_SIZE :=
        fun j hj => hpre (j + 1) (Nat.succ_lt_succ hj)
      split
      · exact ih (idx + 1) _ i hi' hpre' heager
      · exact ih (idx + 1) best i hi' hpre' heager

/-- The first candidate (in input order) whose projected size is strictly
below the budget is accepted immediately, appended to the used-table list. -/
theorem findBest_eager (s : StaticAccountSize) (size lutCount includedAccounts : Nat)
    (remainingAccounts : List Nat) (usedLuts : List AddressLookupTableAccount)
    (luts : List (List Nat × AddressLookupTableAccount)) (i : Nat) (hi : i < luts.length)
    (hpre : ∀ j (hj : j < i),
      ¬ projectedSize s lutCount includedAccounts remainingAccounts
          (luts.get ⟨j, lt_trans hj hi⟩).1 < MAX_TRANSACTION_SIZE)
    (heager : projectedSize s lutCount includedAccounts remainingAccounts
        (luts.get ⟨i, hi⟩).1 < MAX_TRANSACTION_SIZE) :
    findBestLookupTables s size lutCount includedAccounts remainingAccounts usedLuts luts =
      { size := projectedSize s lutCount includedAccounts remainingAccounts
          (luts.get ⟨i, hi⟩).1,
        lookupTables := usedLuts ++ [(luts.get ⟨i, hi⟩).2],
        uniqueKeyCount :=
          includedAccounts + (containedInLUTCount remainingAccounts (luts.get ⟨i, hi⟩).1).1 +
            (containedInLUTCount remainingAccounts (luts.get ⟨i, hi⟩).1).2.length } := by
  rw [findBestLookupTables]
  rw [if_neg (by omega : ¬ luts.length = 0)]
  rw [scanLuts_eager_spec s lutCount includedAccounts remainingAccounts luts 0 _ i hi
    hpre heager]

/-- Projected size of one candidate entry of the table pool. -/
def projOf (s : StaticAccountSize) (lutCount includedAccounts : Nat)
    (remainingAccounts : List Nat) (p : List Nat × AddressLookupTableAccount) : Nat :=
  projectedSize s lutCount includedAccounts remainingAccounts p.1

/-- When no candidate reaches the budget, the scan returns either the initial
best state (no candidate strictly improves on it) or the state of the first
candidate attaining the minimum projected size. -/
theorem scanLuts_scanned_spec (s : StaticAccountSize) (lutCount includedAccounts : Nat)
    (remainingAccounts : List Nat) :
    ∀ (luts : List (List Nat × AddressLookupTableAccount)) (idx : Nat) (best : BestState),
      (∀ p ∈ luts,
        ¬ projOf s lutCount includedAccounts remainingAccounts p < MAX_TRANSACTION_SIZE) →
      (scanLuts s lutCount includedAccounts remainingAccounts luts idx best =
          .scanned best ∧
        ∀ p ∈ luts,
          best.bestSize ≤ projOf s lutCount includedAccounts remainingAccounts p) ∨
      (∃ i, ∃ hi : i < luts.length,
        scanLuts s lutCount includedAccounts remainingAccounts luts idx best =
          .scanned
            ⟨projOf s lutCount includedAccounts remainingAccounts (luts.get ⟨i, hi⟩),
              (containedInLUTCount remainingAccounts (luts.get ⟨i, hi⟩).1).2,
              includedAccounts +
                (containedInLUTCount remainingAccounts (luts.get ⟨i, hi⟩).1).1,
              idx + i⟩ ∧
        projOf s lutCount includedAccounts remainingAccounts (luts.get ⟨i, hi⟩) <
          best.bestSize ∧
        (∀ j (hj : j < luts.length),
          projOf s lutCount includedAccounts remainingAccounts (luts.get ⟨i, hi⟩) ≤
            projOf s lutCount includedAccounts remainingAccounts (luts.get ⟨j, hj⟩)) ∧
        (∀ j (hj : j < i),
          projOf s lutCount includedAccounts remainingAccounts (luts.get ⟨i, hi⟩) <
            projOf s lutCount includedAccounts remainingAccounts
              (luts.get ⟨j, lt_trans hj hi⟩))) := by
  intro luts
  induction luts with
  | nil =>
    intro idx best _
    left
    exact ⟨rfl, by simp⟩
  | cons p rest ih =>
    intro idx best hall
    obtain ⟨lutSet, lutAccount⟩ := p
    have h0 : ¬ projectedSize s lutCount includedAccounts remainingAccounts lutSet <
        MAX_TRANSACTION_SIZE :=
      hall (lutSet, lutAccount) (List.mem_cons_self _ _)
    have hall' : ∀ q ∈ rest,
        ¬ projOf s lutCount includedAccounts remainingAccounts q < MAX_TRANSACTION_SIZE :=
      fun q hq => hall q (List.mem_cons_of_mem _ hq)
    simp only [scanLuts]
    rw [show totalSize s (lutCount + 1)
        (includedAccounts + (containedInLUTCount remainingAccounts lutSet).1)
        (containedInLUTCount remainingAccounts lutSet).2.length =
      projectedSize s lutCount includedAccounts remainingAccounts lutSet from rfl]
    rw [if_neg h0]
    by_cases hb : projectedSize s lutCount includedAccounts remainingAccounts lutSet <
        best.bestSize
    · rw [if_pos hb]
      rcases ih (idx + 1)
          ⟨projectedSize s lutCount includedAccounts remainingAccounts lutSet,
            (containedInLUTCount remainingAccounts lutSet).2,
            includedAccounts + (containedInLUTCount remainingAccounts lutSet).1, idx⟩
          hall' with
        ⟨hscan, hmin⟩ | ⟨i, hi, hscan, hlt, hmin, hfirst⟩
      · right
        refine ⟨0, by simp, ?_, ?_, ?_, ?_⟩
        · rw [hscan]
          simp [projOf, List.get]
        · simpa [projOf, List.get] using hb
        · intro j hj
          cases j with
          | zero => simp
          | succ j =>
            have hj' : j < rest.length := by
              simpa using Nat.lt_of_succ_lt_succ hj
            have := hmin (rest.get ⟨j, hj'⟩) (rest.get_mem j hj')
            simpa [projOf, List.get] using this
        · intro j hj
          exact absurd hj (Nat.not_lt_zero j)
      · right
        refine ⟨i + 1, by simpa using Nat.succ_lt_succ hi, ?_, ?_, ?_, ?_⟩
        · rw [hscan]
          simp only [projOf, List.get]
          rw [show idx + 1 + i = idx + (i + 1) from by omega]
        · simp only [projOf, List.get] at hlt ⊢
          omega
        · intro j hj
          cases j with
          | zero =>
            simp only [projOf, List.get] at hlt ⊢
            omega
          | succ j =>
            have hj' : j < rest.length := by simpa using Nat.lt_of_succ_lt_succ hj
            have := hmin j hj'
            simpa [projOf, List.get] using this
        · intro j hj
          cases j with
          | zero =>
            simp only [projOf, List.get] at hlt ⊢
            omega
          | succ j =>
            have hj' : j < i := Nat.lt_of_succ_lt_succ hj
            have := hfirst j hj'
            simpa [projOf, List.get] using this
    · rw [if_neg hb]
      rcases ih (idx + 1) best hall' with
        ⟨hscan, hmin⟩ | ⟨i, hi, hscan, hlt, hmin, hfirst⟩
      · left
        refine ⟨hscan, ?_⟩
        intro q hq
        rcases List.mem_cons.mp hq with rfl | hq
        · simpa [projOf] using Nat.le_of_not_lt hb
        · exact hmin q hq
      · right
        have hble : best.bestSize ≤
            projectedSize s lutCount includedAccounts remainingAccounts lutSet :=
          Nat.le_of_not_lt hb
        refine ⟨i + 1, by simpa using Nat.succ_lt_succ hi, ?_, ?_, ?_, ?_⟩
        · rw [hscan]
          simp only [projOf, List.get]
          rw [show idx + 1 + i = idx + (i + 1) from by omega]
        · simpa [projOf, List.get] using hlt
        · intro j hj
          cases j with
          | zero =>
            simp only [projOf, List.get] at hlt ⊢
            omega
          | succ j =>
            have hj' : j < rest.length := by simpa using Nat.lt_of_succ_lt_succ hj
            have := hmin j hj'
            simpa [projOf, List.get] using this
        · intro j hj
          cases j with
          | zero =>
            simp only [projOf, List.get] at hlt ⊢
            omega
          | succ j =>
            have hj' : j < i := Nat.lt_of_succ_lt_succ hj
            have := hfirst j hj'
            simpa [projOf, List.get] using this

/-- When no candidate reaches the budget and none strictly improves on the
current size, the selection stops, returning the tables used so far. -/
theorem findBest_no_improvement (s : StaticAccountSize)
    (size lutCount includedAccounts : Nat) (remainingAccounts : List Nat)
    (usedLuts : List AddressLookupTableAccount)
    (luts : List (List Nat × AddressLookupTableAccount))
    (hnoeager : ∀ p ∈ luts,
      ¬ projectedSize s lutCount includedAccounts remainingAccounts p.1 <
        MAX_TRANSACTION_SIZE)
    (hgeq : ∀ p ∈ luts,
      size ≤ projectedSize s lutCount includedAccounts remainingAccounts p.1) :
    findBestLookupTables s size lutCount includedAccounts remainingAccounts usedLuts
        luts =
      { size := size, lookupTables := usedLuts,
        uniqueKeyCount := includedAccounts + remainingAccounts.length } := by
  by_cases hne : luts.length = 0
  · rw [findBestLookupTables, if_pos hne]
  rcases scanLuts_scanned_spec s lutCount includedAccounts remainingAccounts luts 0
      ⟨size, remainingAccounts, includedAccounts, 0⟩ hnoeager with
    ⟨hscan, _⟩ | ⟨i, hi, hscan, hlt, _, _⟩
  · rw [findBestLookupTables, if_neg hne, hscan]
    simp
  · exfalso
    have hge := hgeq (luts.get ⟨i, hi⟩) (luts.get_mem i hi)
    simp only [projOf] at hlt
    exact absurd hlt (not_lt.mpr hge)

/-- When no candidate reaches the budget and the first minimiser of the
projected size strictly improves on the current size, that candidate is
committed: appended to the used-table list, removed from the pool, and the
selection recurses on the updated remaining-key set. -/
theorem findBest_commit (s : StaticAccountSize)
    (size lutCount includedAccounts : Nat) (remainingAccounts : List Nat)
    (usedLuts : List AddressLookupTableAccount)
    (luts : List (List Nat × AddressLookupTableAccount))
    (hnoeager : ∀ p ∈ luts,
      ¬ projectedSize s lutCount includedAccounts remainingAccounts p.1 <
        MAX_TRANSACTION_SIZE)
    (i : Nat) (hi : i < luts.length)
    (himp : projectedSize s lutCount includedAccounts remainingAccounts
        (luts.get ⟨i, hi⟩).1 < size)
    (hmin2 : ∀ j (hj : j < luts.length),
      projectedSize s lutCount includedAccounts remainingAccounts (luts.get ⟨i, hi⟩).1 ≤
        projectedSize s lutCount includedAccounts remainingAccounts (luts.get ⟨j, hj⟩).1)
    (hfirst2 : ∀ j (hj : j < i),
      projectedSize s lutCount includedAccounts remainingAccounts (luts.get ⟨i, hi⟩).1 <
        projectedSize s lutCount includedAccounts remainingAccounts
          (luts.get ⟨j, lt_trans hj hi⟩).1) :
    findBestLookupTables s size lutCount includedAccounts remainingAccounts usedLuts
        luts =
      findBestLookupTables s
        (projectedSize s lutCount includedAccounts remainingAccounts (luts.get ⟨i, hi⟩).1)
        (lutCount + 1)
        (includedAccounts + (containedInLUTCount remainingAccounts (luts.get ⟨i, hi⟩).1).1)
        (containedInLUTCount remainingAccounts (luts.get ⟨i, hi⟩).1).2
        (usedLuts ++ [(luts.get ⟨i, hi⟩).2]) (luts.eraseIdx i) := by
  have hne : ¬ luts.length = 0 := by omega
  rcases scanLuts_scanned_spec s lutCount includedAccounts remainingAccounts luts 0
      ⟨size, remainingAccounts, includedAccounts, 0⟩ hnoeager with
    ⟨hscan, hmin⟩ | ⟨i', hi', hscan, hlt, hmin, hfirst⟩
  · exfalso
    have hge := hmin (luts.get ⟨i, hi⟩) (luts.get_mem i hi)
    simp only [projOf] at hge
    exact absurd himp (not_lt.mpr hge)
  · have hii : i = i' := by
      rcases Nat.lt_trichotomy i i' with h | h | h
      · exact absurd (lt_of_le_of_lt (hmin2 i' hi') (hfirst i h)) (lt_irrefl _)
      · exact h
      · exact absurd (lt_of_le_of_lt (hmin i hi) (hfirst2 i' h)) (lt_irrefl _)
    subst hii
    rw [findBestLookupTables, if_neg hne, hscan]
    simp only [projOf, Nat.zero_add]
    rw [if_neg (by omega), dif_pos hi]

/-!  The used-table list is only ever extended. -/

theorem findBest_tables_extend :
    ∀ (n : Nat) (s : StaticAccountSize) (size lutCount includedAccounts : Nat)
      (remainingAccounts : List Nat) (usedLuts : List AddressLookupTableAccount)
      (luts : List (List Nat × AddressLookupTableAccount)),
      luts.length ≤ n →
      ∃ t, (findBestLookupTables s size lutCount includedAccounts remainingAccounts
          usedLuts luts).lookupTables = usedLuts ++ t := by
  intro n
  induction n with
  | zero =>
    intro s size lc inc rem used luts hlen
    rw [findBestLookupTables, if_pos (by omega)]
    exact ⟨[], by simp⟩
  | succ n ih =>
    intro s size lc inc rem used luts hlen
    by_cases h0 : luts.length = 0
    · rw [findBestLookupTables, if_pos h0]
      exact ⟨[], by simp⟩
    · rw [findBestLookupTables, if_neg h0]
      cases hscan : scanLuts s lc inc rem luts 0 ⟨size, rem, inc, 0⟩ with
      | eager lut txnSize newIncluded remainingUnique =>
        exact ⟨[lut], rfl⟩
      | scanned best =>
        simp only
        by_cases hsz : size = best.bestSize
        · rw [if_pos hsz]
          exact ⟨[], by simp⟩
        · rw [if_neg hsz]
          by_cases hidx : best.bestLutIndex < luts.length
          · rw [dif_pos hidx]
            obtain ⟨t, ht⟩ := ih s best.bestSize (lc + 1) best.bestIncluded
              best.bestRemaining (used ++ [(luts.get ⟨best.bestLutIndex, hidx⟩).2])
              (luts.eraseIdx best.bestLutIndex)
              (by rw [List.length_eraseIdx]; simp only [hidx, if_true]; omega)
            rw [ht]
            exact ⟨(luts.get ⟨best.bestLutIndex, hidx⟩).2 :: t, by simp⟩
          · rw [dif_neg hidx]
            exact ⟨[], by simp⟩

/-- If the selection returns without having extended the used-table list, it
returns the size and key count it was called with. -/
theorem findBest_tables_same :
    ∀ (n : Nat) (s : StaticAccountSize) (size lutCount includedAccounts : Nat)
      (remainingAccounts : List Nat) (usedLuts : List AddressLookupTableAccount)
      (luts : List (List Nat × AddressLookupTableAccount)),
      luts.length ≤ n →
      (findBestLookupTables s size lutCount includedAccounts remainingAccounts usedLuts
          luts).lookupTables = usedLuts →
      findBestLookupTables s size lutCount includedAccounts remainingAccounts usedLuts
          luts =
        { size := size, lookupTables := usedLuts,
          uniqueKeyCount := includedAccounts + remainingAccounts.length } := by
  intro n
  induction n with
  | zero =>
    intro s size lc inc rem used luts hlen _
    rw [findBestLookupTables, if_pos (by omega)]
  | succ n ih =>
    intro s size lc inc rem used luts hlen htab
    by_cases h0 : luts.length = 0
    · rw [findBestLookupTables, if_pos h0]
    · rw [findBestLookupTables, if_neg h0] at htab ⊢
      cases hscan : scanLuts s lc inc rem luts 0 ⟨size, rem, inc, 0⟩ with
      | eager lut txnSize newIncluded remainingUnique =>
        rw [hscan] at htab
        simp only at htab
        exact absurd (congrArg List.length htab) (by simp)
      | scanned best =>
        rw [hscan] at htab
        simp only at htab ⊢
        by_cases hsz : size = best.bestSize
        · rw [if_pos hsz]
        · rw [if_neg hsz] at htab ⊢
          by_cases hidx : best.bestLutIndex < luts.length
          · rw [dif_pos hidx] at htab ⊢
            obtain ⟨t, ht⟩ := findBest_tables_extend luts.length s best.bestSize (lc + 1)
              best.bestIncluded best.bestRemaining
              (used ++ [(luts.get ⟨best.bestLutIndex, hidx⟩).2])
              (luts.eraseIdx best.bestLutIndex)
              (by rw [List.length_eraseIdx]; simp only [hidx, if_true]; omega)
            rw [ht] at htab
            exfalso
            have := congrArg List.length htab
            simp at this
          · rw [dif_neg hidx]

/-!  The specification formulas for the baseline (no-table) size. -/

/-- The spec formula `compact-length-of(n) = 1 if n ≤ 127 else 2`. -/
def specCompactLen (n : Nat) : Nat :=
  if n ≤ 127 then 1 else 2

/-- The spec's signer count: the fee payer together with every `isSigner`
account key, each counted once. -/
def specSignerCount (instructions : List InstructionWithSigners) (funder : Nat) : Nat :=
  (insert funder
    (instructions.flatMap
      (fun i => (i.instruction.keys.filter (·.isSigner)).map (·.pubkey))).toFinset).card

/-- The spec's per-instruction contribution
`1 + compact-length-of(accountCount) + accountCount + compact-length-of(dataLen) + dataLen`. -/
def specPerInstructionSize (i : InstructionWithSigners) : Nat :=
  1 + specCompactLen i.instruction.keys.length + i.instruction.keys.length +
    specCompactLen i.instruction.data.length + i.instruction.data.length

/-- The spec's static-region formula. -/
def specStaticRegion (instructions : List InstructionWithSigners) (funder : Nat) : Nat :=
  specCompactLen (specSignerCount instructions funder) +
    64 * specSignerCount instructions funder + 3 + 32 + 1 +
    specCompactLen instructions.length +
    (instructions.map specPerInstructionSize).sum + 1

/-- The spec's static key count: fee payer, signer keys, program-id keys and
all remaining referenced keys, each counted exactly once. -/
def specStaticKeyCount (instructions : List InstructionWithSigners) (funder : Nat) : Nat :=
  (insert funder
    ((instructions.flatMap
        (fun i => (i.instruction.keys.filter (·.isSigner)).map (·.pubkey))).toFinset ∪
      (programIdSeq instructions).toFinset ∪
      (referencedKeySeq instructions).toFinset)).card

/-- The spec's baseline (no tables) size formula. -/
def specBaselineSize (instructions : List InstructionWithSigners) (funder : Nat) : Nat :=
  specStaticRegion instructions funder +
    specCompactLen (specStaticKeyCount instructions funder) +
    32 * specStaticKeyCount instructions funder

theorem compactLen_eq (n : Nat) : lengthToCompact16size n = specCompactLen n := by
  unfold lengthToCompact16size specCompactLen
  rcases le_or_lt n 127 with h | h
  · rw [if_neg (by omega), if_pos h]
  · rw [if_pos (by omega), if_neg (by omega)]

theorem uniqueSigners_length (instructions : List InstructionWithSigners) (funder : Nat) :
    (uniqueSigners instructions funder).length = specSignerCount instructions funder := by
  unfold uniqueSigners specSignerCount signerKeySeq
  rw [length_setOfList]
  simp

theorem staticSizeOf_eq (instructions : List InstructionWithSigners) (funder : Nat) :
    staticSizeOf instructions funder = specStaticRegion instructions funder := by
  unfold staticSizeOf specStaticRegion ixSizes
  rw [uniqueSigners_length, compactLen_eq, compactLen_eq]
  rw [List.map_congr_left (fun i _ => by
    unfold specPerInstructionSize
    rw [compactLen_eq, compactLen_eq] :
    ∀ i ∈ instructions, 1 + lengthToCompact16size i.instruction.keys.length +
        i.instruction.keys.length + lengthToCompact16size i.instruction.data.length +
        i.instruction.data.length = specPerInstructionSize i)]
  omega

theorem staticKeyCount_eq (instructions : List InstructionWithSigners) (funder : Nat) :
    (ineligibleKeys instructions funder).length +
        (lutEligibleKeys instructions funder).length =
      specStaticKeyCount instructions funder := by
  have hUS : (uniqueSigners instructions funder).toFinset =
      insert funder
        (instructions.flatMap
          (fun i => (i.instruction.keys.filter (·.isSigner)).map (·.pubkey))).toFinset := by
    unfold uniqueSigners signerKeySeq
    rw [toFinset_setOfList]
    simp
  have hPI : (programIds instructions).toFinset = (programIdSeq instructions).toFinset := by
    unfold programIds
    rw [toFinset_setOfList]
  have hinel : (ineligibleKeys instructions funder).toFinset =
      (uniqueSigners instructions funder).toFinset ∪
        (programIds instructions).toFinset := by
    ext a
    simp [ineligibleKeys, mem_setOfList]
  have helig : (lutEligibleKeys instructions funder).toFinset =
      (referencedKeySeq instructions).toFinset \
        ((uniqueSigners instructions funder).toFinset ∪
          (programIds instructions).toFinset) := by
    ext a
    simp [lutEligibleKeys, List.mem_filter, mem_setOfList]
    tauto
  have hnodupI : (ineligibleKeys instructions funder).Nodup := setOfList_nodup _
  have hnodupE : (lutEligibleKeys instructions funder).Nodup :=
    (((setOfList_nodup _).filter _).filter _)
  rw [← List.toFinset_card_of_nodup hnodupI, ← List.toFinset_card_of_nodup hnodupE,
    hinel, helig]
  rw [Nat.add_comm, Finset.card_sdiff_add_card]
  unfold specStaticKeyCount
  congr 1
  rw [hUS, hPI]
  ext a
  simp only [Finset.mem_union, Finset.mem_insert, List.mem_toFinset]
  tauto

theorem baselineSize_eq_spec (instructions : List InstructionWithSigners) (funder : Nat) :
    baselineSize instructions funder = specBaselineSize instructions funder := by
  unfold baselineSize totalSize staticAccountSizeOf specBaselineSize
  simp only
  rw [staticSizeOf_eq, compactLen_eq, staticKeyCount_eq]
  omega

/-- Whenever size estimation selects no tables, the reported size is exactly
the spec's baseline formula. -/
theorem getTransactionSize_no_tables_spec (instructions : List InstructionWithSigners)
    (funder : Nat) (lookupTables : List (List Nat × AddressLookupTableAccount))
    (h : (getTransactionSize instructions funder lookupTables).lookupTables = []) :
    (getTransactionSize instructions funder lookupTables).size =
      specBaselineSize instructions funder := by
  unfold getTransactionSize at h ⊢
  split_ifs at h ⊢ with h1 h2
  · exact baselineSize_eq_spec instructions funder
  · exact baselineSize_eq_spec instructions funder
  · rw [findBest_tables_same lookupTables.length (staticAccountSizeOf instructions funder)
      (baselineSize instructions funder) 0 0 (lutEligibleKeys instructions funder) []
      lookupTables le_rfl h]
    exact baselineSize_eq_spec instructions funder

/-!  Signing passes. -/

/-- The canonical record of a signer invocation: its single batched call
covers every assigned message index. -/
def signCallOf (n : Nat) (e : SignerEntry) : SignCall :=
  ⟨e.key, e.requiresAsync, txsToSignIndices n e⟩

theorem applySignAll_length (k : Nat) (assigned : List Nat) (txs : List (List Nat)) :
    (applySignAll k assigned txs).length = txs.length := by
  simp [applySignAll]

theorem signPass_txs_length (flag : Bool) :
    ∀ (signers : List SignerEntry) (txs : List (List Nat)),
      (signPass flag signers txs).1.length = txs.length := by
  intro signers
  induction signers with
  | nil => intro txs; rfl
  | cons e rest ih =>
    intro txs
    simp only [signPass]
    split
    · simp [ih, applySignAll_length]
    · exact ih txs

theorem signPass_calls (flag : Bool) :
    ∀ (signers : List SignerEntry) (txs : List (List Nat)),
      (signPass flag signers txs).2 =
        (signers.filter (fun e => e.requiresAsync = flag)).map
          (signCallOf txs.length) := by
  intro signers
  induction signers with
  | nil => intro txs; rfl
  | cons e rest ih =>
    intro txs
    by_cases he : e.requiresAsync = flag
    · simp only [signPass, if_pos he, List.filter_cons]
      rw [ih, applySignAll_length]
      simp [signCallOf, he]
    · simp only [signPass, if_neg he, List.filter_cons]
      rw [ih]
      simp [he]

theorem signTransactionReturns_trace (txs : List (List Nat))
    (signers : List SignerEntry) :
    (signTransactionReturns txs signers).2 =
      (signers.filter (fun e => e.requiresAsync = true)).map (signCallOf txs.length) ++
        (signers.filter (fun e => e.requiresAsync = false)).map
          (signCallOf txs.length) := by
  unfold signTransactionReturns
  simp only
  rw [signPass_calls, signPass_calls, signPass_txs_length]

theorem trace_perm_signers (txs : List (List Nat)) (signers : List SignerEntry) :
    List.Perm (signTransactionReturns txs signers).2
      (signers.map (signCallOf txs.length)) := by
  rw [signTransactionReturns_trace]
  have hq : (fun e : SignerEntry => decide (e.requiresAsync = false)) =
      (fun e : SignerEntry => !(decide (e.requiresAsync = true))) := by
    funext e
    cases e.requiresAsync <;> simp
  rw [← List.map_append]
  apply List.Perm.map
  rw [hq]
  exact List.filter_append_perm _ signers

/-!  Claim theorems. -/

/-- C10: with an empty main instruction list and scaffolding that fits the
byte and key budgets on its own, pack returns `ok []`: no scaffolding-only
batch is emitted. -/
theorem claim_C10 (funder : Nat)
    (beforeIxs afterIxs : List InstructionWithSigners)
    (lookupTables : List AddressLookupTableAccount) (maxCount : Nat)
    (hsize : (getTransactionSize (beforeIxs ++ afterIxs) funder
        (buildLookupTableSet lookupTables)).size ≤ MAX_TRANSACTION_SIZE)
    (hkeys : (getTransactionSize (beforeIxs ++ afterIxs) funder
        (buildLookupTableSet lookupTables)).uniqueKeyCount ≤ MAX_UNIQUE_KEYS_COUNT) :
    buildDynamicTransactionsNoSigning [] funder beforeIxs afterIxs lookupTables
      maxCount = .ok [] :=
  buildDynamic_nil_ok funder beforeIxs afterIxs lookupTables maxCount hsize hkeys

/-- Witness for C10 at a concrete input. -/
theorem claim_C10_witness :
    buildDynamicTransactionsNoSigning [] 0 [] [] [] 64 = .ok [] :=
  claim_C10 0 [] [] [] 64 (by decide) (by decide)

/-- C4: whenever size estimation selects no compression tables, the reported
size is exactly the spec formula: static region plus
`compact-length-of(staticKeyCount) + 32 * staticKeyCount`, where the static
key count counts the fee payer, the signer keys, the program-id keys and the
remaining referenced keys exactly once. -/
theorem claim_C4 (instructions : List InstructionWithSigners) (funder : Nat)
    (lookupTables : List (List Nat × AddressLookupTableAccount))
    (h : (getTransactionSize instructions funder lookupTables).lookupTables = []) :
    (getTransactionSize instructions funder lookupTables).size =
      specStaticRegion instructions funder +
        specCompactLen (specStaticKeyCount instructions funder) +
        32 * specStaticKeyCount instructions funder :=
  getTransactionSize_no_tables_spec instructions funder lookupTables h

/-- Witness for C4 at a concrete input. -/
theorem claim_C4_witness :
    (getTransactionSize [⟨⟨1, [], []⟩, []⟩] 0 []).size =
      specStaticRegion [⟨⟨1, [], []⟩, []⟩] 0 +
        specCompactLen (specStaticKeyCount [⟨⟨1, [], []⟩, []⟩] 0) +
        32 * specStaticKeyCount [⟨⟨1, [], []⟩, []⟩] 0 :=
  claim_C4 [⟨⟨1, [], []⟩, []⟩] 0 [] (by decide)

/-- C8: for every confirmation outcome — success, on-chain failure, or a
raised exception — the resend timer is cleared, and an on-chain execution
failure is returned as an `err` value inside a non-exceptional result, never
thrown. -/
theorem claim_C8 (confirmOutcome : Except Nat ConfirmResponse) (signature : Nat) :
    SendAction.clearResendTimer ∈ (sendTransaction confirmOutcome signature).1 ∧
    (∀ context e, confirmOutcome = .ok ⟨context, some e⟩ →
      (sendTransaction confirmOutcome signature).2 = .ok (context, .err e)) := by
  constructor
  · rcases confirmOutcome with e | ⟨ctx, err?⟩
    · simp [sendTransaction]
    · rcases err? with _ | e <;> simp [sendTransaction]
  · rintro context e rfl
    simp [sendTransaction]

/-- Witness for C8 at a concrete on-chain failure. -/
theorem claim_C8_witness :
    SendAction.clearResendTimer ∈ (sendTransaction (.ok ⟨5, some 3⟩) 7).1 ∧
      (sendTransaction (.ok ⟨5, some 3⟩) 7).2 = .ok (5, .err 3) :=
  ⟨(claim_C8 (.ok ⟨5, some 3⟩) 7).1, (claim_C8 (.ok ⟨5, some 3⟩) 7).2 5 3 rfl⟩

/-- C7: the signing trace splits into the asynchronous calls followed by the
local calls, it is a permutation of one canonical call per registered signer,
and every call is the single batched sign-all call over all of the signer's
assigned message indices. -/
theorem claim_C7 (txs : List (List Nat)) (signers : List SignerEntry) :
    ∃ A B,
      (signTransactionReturns txs signers).2 = A ++ B ∧
      (∀ c ∈ A, c.requiresAsync = true) ∧
      (∀ c ∈ B, c.requiresAsync = false) ∧
      List.Perm (signTransactionReturns txs signers).2
        (signers.map (signCallOf txs.length)) ∧
      (∀ c ∈ (signTransactionReturns txs signers).2,
        ∃ e ∈ signers, c = signCallOf txs.length e) := by
  refine ⟨(signers.filter (fun e => e.requiresAsync = true)).map (signCallOf txs.length),
    (signers.filter (fun e => e.requiresAsync = false)).map (signCallOf txs.length),
    signTransactionReturns_trace txs signers, ?_, ?_, trace_perm_signers txs signers, ?_⟩
  · intro c hc
    obtain ⟨e, he, rfl⟩ := List.mem_map.mp hc
    have h := (List.mem_filter.mp he).2
    simpa [signCallOf] using h
  · intro c hc
    obtain ⟨e, he, rfl⟩ := List.mem_map.mp hc
    have h := (List.mem_filter.mp he).2
    simpa [signCallOf] using h
  · intro c hc
    rw [signTransactionReturns_trace] at hc
    rcases List.mem_append.mp hc with hc | hc <;>
      obtain ⟨e, he, rfl⟩ := List.mem_map.mp hc <;>
      exact ⟨e, (List.mem_filter.mp he).1, rfl⟩

/-- C1 (amended): when the before/after scaffolding alone fits the byte and
key budgets, and every instruction together with the scaffolding fits the
byte budget, the key budget and the instruction-count cap, pack succeeds and
the emitted batches' instructions, with the scaffolding stripped,
concatenate to the input list in its original order. -/
theorem claim_C1 (instructions : List InstructionWithSigners) (funder : Nat)
    (beforeIxs afterIxs : List InstructionWithSigners)
    (lookupTables : List AddressLookupTableAccount) (maxCount : Nat)
    (hscaffSize : (getTransactionSize (beforeIxs ++ afterIxs) funder
        (buildLookupTableSet lookupTables)).size ≤ MAX_TRANSACTION_SIZE)
    (hscaffKeys : (getTransactionSize (beforeIxs ++ afterIxs) funder
        (buildLookupTableSet lookupTables)).uniqueKeyCount ≤ MAX_UNIQUE_KEYS_COUNT)
    (hfits : ∀ ix ∈ instructions,
      (getTransactionSize (beforeIxs ++ [ix] ++ afterIxs) funder
          (buildLookupTableSet lookupTables)).size ≤ MAX_TRANSACTION_SIZE ∧
        (getTransactionSize (beforeIxs ++ [ix] ++ afterIxs) funder
            (buildLookupTableSet lookupTables)).uniqueKeyCount ≤
          MAX_UNIQUE_KEYS_COUNT ∧
        beforeIxs.length + 1 + afterIxs.length ≤ maxCount) :
    ∃ batches,
      buildDynamicTransactionsNoSigning instructions funder beforeIxs afterIxs
          lookupTables maxCount = .ok batches ∧
        (batches.map (stripScaffolding beforeIxs.length afterIxs.length)).flatten =
          instructions := by
  simp only [buildDynamicTransactionsNoSigning]
  rw [if_neg (by omega), if_neg (by omega)]
  obtain ⟨out, hout, hflat⟩ := packLoop_ok_concat funder (buildLookupTableSet lookupTables)
    beforeIxs afterIxs maxCount instructions
    (fun ix hix => ⟨(hfits ix hix).1, (hfits ix hix).2.1⟩) []
    ⟨beforeIxs ++ afterIxs,
      (getTransactionSize (beforeIxs ++ afterIxs) funder
        (buildLookupTableSet lookupTables)).lookupTables⟩
    [] (by simp)
  exact ⟨out, hout, by simpa using hflat⟩

set_option maxRecDepth 100000 in
/-- C1 counterexample: with an empty instruction list the per-instruction fit
condition holds vacuously, yet pack fails outright when the scaffolding alone
exceeds the byte budget. -/
theorem claim_C1_counterexample :
    (∀ ix ∈ ([] : List InstructionWithSigners),
      (getTransactionSize
          ([⟨⟨50, (List.range 40).map (fun k => ⟨k, false, false⟩), []⟩, []⟩] ++ [ix] ++ [])
          100 []).size ≤ MAX_TRANSACTION_SIZE) ∧
    buildDynamicTransactionsNoSigning [] 100
        [⟨⟨50, (List.range 40).map (fun k => ⟨k, false, false⟩), []⟩, []⟩] [] [] 64 =
      .err beforeAfterTooBigMsg ∧
    ∀ out,
      buildDynamicTransactionsNoSigning [] 100
          [⟨⟨50, (List.range 40).map (fun k => ⟨k, false, false⟩), []⟩, []⟩] [] [] 64 ≠
        .ok out := by
  refine ⟨fun ix hix => absurd hix (List.not_mem_nil ix), by decide, ?_⟩
  intro out h
  rw [show buildDynamicTransactionsNoSigning [] 100
      [⟨⟨50, (List.range 40).map (fun k => ⟨k, false, false⟩), []⟩, []⟩] [] [] 64 =
    .err beforeAfterTooBigMsg from by decide] at h
  exact absurd h (by simp)

/-- Witness for C1 (amended) at a concrete input. -/
theorem claim_C1_witness :
    ∃ batches,
      buildDynamicTransactionsNoSigning
          [⟨⟨1, [⟨10, false, false⟩], []⟩, []⟩, ⟨⟨2, [⟨11, false, false⟩], []⟩, []⟩] 100
          [] [] [] 64 = .ok batches ∧
        (batches.map (stripScaffolding ([] : List InstructionWithSigners).length
            ([] : List InstructionWithSigners).length)).flatten =
          [⟨⟨1, [⟨10, false, false⟩], []⟩, []⟩, ⟨⟨2, [⟨11, false, false⟩], []⟩, []⟩] :=
  claim_C1 [⟨⟨1, [⟨10, false, false⟩], []⟩, []⟩, ⟨⟨2, [⟨11, false, false⟩], []⟩, []⟩] 100
    [] [] [] 64 (by decide) (by decide) (by decide)

/-- C2 (amended): every batch of a successful pack satisfies the byte budget
and the key budget, and its instruction count is bounded by
`max maxCount (|before| + |after| + 1)` — the cap itself can be exceeded by a
batch seeded as a minimal scaffolding-plus-one-instruction batch. -/
theorem claim_C2 (instructions : List InstructionWithSigners) (funder : Nat)
    (beforeIxs afterIxs : List InstructionWithSigners)
    (lookupTables : List AddressLookupTableAccount) (maxCount : Nat)
    (out : List InstructionsWithSignersAndLUTs)
    (h : buildDynamicTransactionsNoSigning instructions funder beforeIxs afterIxs
        lookupTables maxCount = .ok out) :
    ∀ b ∈ out,
      (getTransactionSize b.instructions funder
          (buildLookupTableSet lookupTables)).size ≤ MAX_TRANSACTION_SIZE ∧
        (getTransactionSize b.instructions funder
            (buildLookupTableSet lookupTables)).uniqueKeyCount ≤
          MAX_UNIQUE_KEYS_COUNT ∧
        b.instructions.length ≤ max maxCount (beforeIxs.length + afterIxs.length + 1) :=
  fun b hb => buildDynamic_ok_bounds instructions funder beforeIxs afterIxs lookupTables
    maxCount out h b hb

/-- C2 counterexample: with `maxInstructionCount = 0` a successful pack emits
a batch whose instruction count exceeds the configured cap. -/
theorem claim_C2_counterexample :
    buildDynamicTransactionsNoSigning [⟨⟨1, [], []⟩, []⟩] 100 [] [] [] 0 =
        .ok [⟨[], []⟩, ⟨[⟨⟨1, [], []⟩, []⟩], []⟩] ∧
      ¬ ((⟨[⟨⟨1, [], []⟩, []⟩], []⟩ :
          InstructionsWithSignersAndLUTs).instructions.length ≤ 0) := by
  constructor
  · decide
  · decide

/-- Witness for C2 (amended) at a concrete input. -/
theorem claim_C2_witness :
    (getTransactionSize
        (⟨[⟨⟨1, [], []⟩, []⟩], []⟩ : InstructionsWithSignersAndLUTs).instructions 100
        (buildLookupTableSet [])).size ≤ MAX_TRANSACTION_SIZE ∧
      (getTransactionSize
          (⟨[⟨⟨1, [], []⟩, []⟩], []⟩ : InstructionsWithSignersAndLUTs).instructions 100
          (buildLookupTableSet [])).uniqueKeyCount ≤ MAX_UNIQUE_KEYS_COUNT ∧
      (⟨[⟨⟨1, [], []⟩, []⟩], []⟩ :
          InstructionsWithSignersAndLUTs).instructions.length ≤
        max 64 (([] : List InstructionWithSigners).length +
          ([] : List InstructionWithSigners).length + 1) :=
  claim_C2 [⟨⟨1, [], []⟩, []⟩] 100 [] [] [] 64 [⟨[⟨⟨1, [], []⟩, []⟩], []⟩] (by decide)
    ⟨[⟨⟨1, [], []⟩, []⟩], []⟩ (by simp)

/-- C6: whenever the tentative splice fails and the fresh minimal batch
(before-instructions, the one instruction, after-instructions) violates the
byte or the key budget, the loop returns an error value — the model is a
total function into a result type, so no exception is thrown — whose message
carries the offending instruction's target program, and the two messages are
distinct for all programs. -/
theorem claim_C6 (funder : Nat)
    (lta : List (List Nat × AddressLookupTableAccount))
    (beforeIxs afterIxs : List InstructionWithSigners) (maxCount : Nat)
    (ix : InstructionWithSigners) (rest : List InstructionWithSigners)
    (current : InstructionsWithSignersAndLUTs)
    (output : List InstructionsWithSignersAndLUTs)
    (htent :
      (getTransactionSize
          (insertAt current.instructions (current.instructions.length - afterIxs.length) ix)
          funder lta).size > MAX_TRANSACTION_SIZE ∨
        (getTransactionSize
            (insertAt current.instructions
              (current.instructions.length - afterIxs.length) ix)
            funder lta).uniqueKeyCount > MAX_UNIQUE_KEYS_COUNT ∨
        (insertAt current.instructions (current.instructions.length - afterIxs.length)
            ix).length > maxCount) :
    ((getTransactionSize (beforeIxs ++ [ix] ++ afterIxs) funder lta).size >
        MAX_TRANSACTION_SIZE →
      packLoop funder lta beforeIxs afterIxs maxCount (ix :: rest) current output =
        .err (instructionTooLargeMsg ix.instruction.programId)) ∧
    ((getTransactionSize (beforeIxs ++ [ix] ++ afterIxs) funder lta).size ≤
        MAX_TRANSACTION_SIZE →
      (getTransactionSize (beforeIxs ++ [ix] ++ afterIxs) funder lta).uniqueKeyCount >
        MAX_UNIQUE_KEYS_COUNT →
      packLoop funder lta beforeIxs afterIxs maxCount (ix :: rest) current output =
        .err (instructionTooManyAccountsMsg ix.instruction.programId)) ∧
    (∀ p q, instructionTooLargeMsg p ≠ instructionTooManyAccountsMsg q) := by
  obtain ⟨h1, h2⟩ := packLoop_minimal_violation funder lta beforeIxs afterIxs maxCount
    ix rest current output htent
  exact ⟨h1, h2, tooLarge_ne_tooMany⟩

set_option maxRecDepth 100000 in
/-- Witness for C6: a concrete 40-key instruction that cannot fit produces the
size-overflow error naming its program. -/
theorem claim_C6_witness :
    packLoop 100 [] [] [] 64
        [⟨⟨55, (List.range 40).map (fun k => ⟨k, false, false⟩), []⟩, []⟩] ⟨[], []⟩ [] =
      .err (instructionTooLargeMsg 55) ∧
    instructionTooLargeMsg 55 ≠ instructionTooManyAccountsMsg 55 := by
  have h := claim_C6 100 [] [] [] 64
    ⟨⟨55, (List.range 40).map (fun k => ⟨k, false, false⟩), []⟩, []⟩ [] ⟨[], []⟩ []
    (Or.inl (by decide))
  exact ⟨h.1 (by decide), h.2.2 55 55⟩

set_option maxRecDepth 1000000 in
/-- Size estimation of the concrete 128-unique-key instruction with a covering
lookup table: the table is selected eagerly and the size drops to 457 bytes. -/
theorem pack128_estimate :
    getTransactionSize
        [⟨⟨200, (List.range 126).map (fun k => ⟨k, false, false⟩), []⟩, []⟩] 300
        (buildLookupTableSet [⟨400, List.range 126⟩]) =
      { size := 457, lookupTables := [⟨400, List.range 126⟩], uniqueKeyCount := 126 } := by
  unfold getTransactionSize
  rw [if_neg (by decide), if_neg (by decide)]
  rw [findBestLookupTables, if_neg (by decide)]
  rw [show scanLuts
      (staticAccountSizeOf
        [⟨⟨200, (List.range 126).map (fun k => ⟨k, false, false⟩), []⟩, []⟩] 300) 0 0
      (lutEligibleKeys
        [⟨⟨200, (List.range 126).map (fun k => ⟨k, false, false⟩), []⟩, []⟩] 300)
      (buildLookupTableSet [⟨400, List.range 126⟩]) 0
      ⟨baselineSize
          [⟨⟨200, (List.range 126).map (fun k => ⟨k, false, false⟩), []⟩, []⟩] 300,
        lutEligibleKeys
          [⟨⟨200, (List.range 126).map (fun k => ⟨k, false, false⟩), []⟩, []⟩] 300,
        0, 0⟩ = ScanResult.eager ⟨400, List.range 126⟩ 457 126 [] from by decide]
  decide

set_option maxRecDepth 1000000 in
/-- Packing the concrete 128-unique-key instruction set with its covering
lookup table yields exactly one batch. -/
theorem pack128_example :
    buildDynamicTransactionsNoSigning
        [⟨⟨200, (List.range 126).map (fun k => ⟨k, false, false⟩), []⟩, []⟩] 300 [] []
        [⟨400, List.range 126⟩] 64 =
      .ok [⟨[⟨⟨200, (List.range 126).map (fun k => ⟨k, false, false⟩), []⟩, []⟩],
        [⟨400, List.range 126⟩]⟩] := by
  simp only [buildDynamicTransactionsNoSigning, List.append_nil]
  rw [show getTransactionSize ([] : List InstructionWithSigners) 300
      (buildLookupTableSet [⟨400, List.range 126⟩]) =
    ⟨136, [], 1⟩ from by decide]
  rw [if_neg (by decide), if_neg (by decide)]
  simp only [packLoop, insertAt, List.length_nil, List.take_nil, List.drop_nil,
    List.nil_append, List.append_nil, Nat.sub_zero]
  rw [pack128_estimate]
  rw [if_neg (by decide)]
  simp only [packLoop]
  rw [if_pos (by decide), deepCopyInstructions_eq]

/-- C5 (amended): an instruction set with exactly 128 unique keys can pack
into a single batch when a supplied compression table covers its eligible
keys; and with no compression tables supplied, pack never reports the
key-overflow error — any failure carries one of the two size-overflow
messages, because without tables more than 128 unique keys always exceed the
byte budget first. -/
theorem claim_C5 :
    (uniqueKeyCountOf
        [⟨⟨200, (List.range 126).map (fun k => ⟨k, false, false⟩), []⟩, []⟩] 300 = 128 ∧
      buildDynamicTransactionsNoSigning
          [⟨⟨200, (List.range 126).map (fun k => ⟨k, false, false⟩), []⟩, []⟩] 300 [] []
          [⟨400, List.range 126⟩] 64 =
        .ok [⟨[⟨⟨200, (List.range 126).map (fun k => ⟨k, false, false⟩), []⟩, []⟩],
          [⟨400, List.range 126⟩]⟩]) ∧
    (∀ (instructions : List InstructionWithSigners) (funder : Nat)
        (beforeIxs afterIxs : List InstructionWithSigners) (maxCount : Nat) (m : String),
      buildDynamicTransactionsNoSigning instructions funder beforeIxs afterIxs []
          maxCount = .err m →
      m = beforeAfterTooBigMsg ∨ ∃ p, m = instructionTooLargeMsg p) :=
  ⟨⟨by set_option maxRecDepth 1000000 in decide, pack128_example⟩,
    fun instructions funder beforeIxs afterIxs maxCount m h =>
      buildDynamic_err_no_luts instructions funder beforeIxs afterIxs maxCount m h⟩

set_option maxRecDepth 1000000 in
/-- C5 counterexample: a single instruction carrying 129 unique keys with no
compression tables fails with the size-overflow message, not the
key-overflow message. -/
theorem claim_C5_counterexample :
    buildDynamicTransactionsNoSigning
        [⟨⟨200, (List.range 127).map (fun k => ⟨k, false, false⟩), []⟩, []⟩] 300 [] [] []
        64 =
      .err (instructionTooLargeMsg 200) ∧
    instructionTooLargeMsg 200 ≠ instructionTooManyAccountsMsg 200 :=
  ⟨by decide, tooLarge_ne_tooMany 200 200⟩

set_option maxRecDepth 1000000 in
/-- Witness for C5: the no-tables error classification applied to the
concrete 129-unique-key failure. -/
theorem claim_C5_witness :
    instructionTooLargeMsg 200 = beforeAfterTooBigMsg ∨
      ∃ p, instructionTooLargeMsg 200 = instructionTooLargeMsg p :=
  claim_C5.2
    [⟨⟨200, (List.range 127).map (fun k => ⟨k, false, false⟩), []⟩, []⟩] 300 [] [] 64
    (instructionTooLargeMsg 200) (by decide)

/-- C3 (amended): during lookup-table selection the first candidate in input
order whose projected size is strictly below 1232 bytes is accepted
immediately — appended to the used-table list and returned — regardless of
any later candidate. -/
theorem claim_C3 (s : StaticAccountSize) (size lutCount includedAccounts : Nat)
    (remainingAccounts : List Nat) (usedLuts : List AddressLookupTableAccount)
    (luts : List (List Nat × AddressLookupTableAccount)) (i : Nat)
    (hi : i < luts.length)
    (hpre : ∀ j (hj : j < i),
      ¬ projectedSize s lutCount includedAccounts remainingAccounts
          (luts.get ⟨j, lt_trans hj hi⟩).1 < MAX_TRANSACTION_SIZE)
    (heager : projectedSize s lutCount includedAccounts remainingAccounts
        (luts.get ⟨i, hi⟩).1 < MAX_TRANSACTION_SIZE) :
    findBestLookupTables s size lutCount includedAccounts remainingAccounts usedLuts
        luts =
      { size := projectedSize s lutCount includedAccounts remainingAccounts
          (luts.get ⟨i, hi⟩).1,
        lookupTables := usedLuts ++ [(luts.get ⟨i, hi⟩).2],
        uniqueKeyCount :=
          includedAccounts +
              (containedInLUTCount remainingAccounts (luts.get ⟨i, hi⟩).1).1 +
            (containedInLUTCount remainingAccounts (luts.get ⟨i, hi⟩).1).2.length } :=
  findBest_eager s size lutCount includedAccounts remainingAccounts usedLuts luts i hi
    hpre heager

/-- C3 counterexample: the first candidate's projected size is exactly 1232 —
at the budget, hence "at or below" it — yet it is skipped and a later
candidate is accepted instead. -/
theorem claim_C3_counterexample :
    projectedSize ⟨1160, 0⟩ 0 0 [0, 1, 2, 3, 4, 5] [0, 1, 2, 3, 4] ≤
        MAX_TRANSACTION_SIZE ∧
      findBestLookupTables ⟨1160, 0⟩ 1353 0 0 [0, 1, 2, 3, 4, 5] []
          [([0, 1, 2, 3, 4], ⟨1000, []⟩), ([0, 1, 2, 3, 4, 5], ⟨2000, []⟩)] =
        { size := 1201, lookupTables := [⟨2000, []⟩], uniqueKeyCount := 6 } ∧
      (findBestLookupTables ⟨1160, 0⟩ 1353 0 0 [0, 1, 2, 3, 4, 5] []
          [([0, 1, 2, 3, 4], ⟨1000, []⟩),
            ([0, 1, 2, 3, 4, 5], ⟨2000, []⟩)]).lookupTables ≠
        [⟨1000, []⟩] := by
  have heval : findBestLookupTables ⟨1160, 0⟩ 1353 0 0 [0, 1, 2, 3, 4, 5] []
      [([0, 1, 2, 3, 4], ⟨1000, []⟩), ([0, 1, 2, 3, 4, 5], ⟨2000, []⟩)] =
      { size := 1201, lookupTables := [⟨2000, []⟩], uniqueKeyCount := 6 } := by
    rw [findBestLookupTables, if_neg (by decide)]
    rw [show scanLuts ⟨1160, 0⟩ 0 0 [0, 1, 2, 3, 4, 5]
        [([0, 1, 2, 3, 4], ⟨1000, []⟩), ([0, 1, 2, 3, 4, 5], ⟨2000, []⟩)] 0
        ⟨1353, [0, 1, 2, 3, 4, 5], 0, 0⟩ =
      ScanResult.eager ⟨2000, []⟩ 1201 6 [] from by decide]
    rfl
  exact ⟨by decide, heval, by rw [heval]; decide⟩

/-- Witness for C3 (amended) at a concrete input with a single sub-budget
candidate. -/
theorem claim_C3_witness :
    findBestLookupTables ⟨1150, 0⟩ 1300 0 0 [7, 8] [] [([7, 8], ⟨77, []⟩)] =
      { size := 1187, lookupTables := [⟨77, []⟩], uniqueKeyCount := 2 } := by
  have h := claim_C3 ⟨1150, 0⟩ 1300 0 0 [7, 8] [] [([7, 8], ⟨77, []⟩)] 0 (by decide)
    (fun j hj => absurd hj (Nat.not_lt_zero j)) (by decide)
  rw [h]
  decide

/-- C9 (amended): when no candidate's projected size reaches the budget, the
selection stops — returning the tables chosen so far — if no candidate
strictly improves on the current size; otherwise the first candidate
attaining the minimum projected size is committed, removed from the pool,
and the selection recurses on the updated remaining-key set. -/
theorem claim_C9 (s : StaticAccountSize) (size lutCount includedAccounts : Nat)
    (remainingAccounts : List Nat) (usedLuts : List AddressLookupTableAccount)
    (luts : List (List Nat × AddressLookupTableAccount))
    (hnoeager : ∀ p ∈ luts,
      ¬ projectedSize s lutCount includedAccounts remainingAccounts p.1 <
        MAX_TRANSACTION_SIZE) :
    ((∀ p ∈ luts,
        size ≤ projectedSize s lutCount includedAccounts remainingAccounts p.1) →
      findBestLookupTables s size lutCount includedAccounts remainingAccounts usedLuts
          luts =
        { size := size, lookupTables := usedLuts,
          uniqueKeyCount := includedAccounts + remainingAccounts.length }) ∧
    (∀ i (hi : i < luts.length),
      projectedSize s lutCount includedAccounts remainingAccounts
          (luts.get ⟨i, hi⟩).1 < size →
      (∀ j (hj : j < luts.length),
        projectedSize s lutCount includedAccounts remainingAccounts
            (luts.get ⟨i, hi⟩).1 ≤
          projectedSize s lutCount includedAccounts remainingAccounts
            (luts.get ⟨j, hj⟩).1) →
      (∀ j (hj : j < i),
        projectedSize s lutCount includedAccounts remainingAccounts
            (luts.get ⟨i, hi⟩).1 <
          projectedSize s lutCount includedAccounts remainingAccounts
            (luts.get ⟨j, lt_trans hj hi⟩).1) →
      findBestLookupTables s size lutCount includedAccounts remainingAccounts usedLuts
          luts =
        findBestLookupTables s
          (projectedSize s lutCount includedAccounts remainingAccounts
            (luts.get ⟨i, hi⟩).1)
          (lutCount + 1)
          (includedAccounts +
            (containedInLUTCount remainingAccounts (luts.get ⟨i, hi⟩).1).1)
          (containedInLUTCount remainingAccounts (luts.get ⟨i, hi⟩).1).2
          (usedLuts ++ [(luts.get ⟨i, hi⟩).2]) (luts.eraseIdx i)) :=
  ⟨findBest_no_improvement s size lutCount includedAccounts remainingAccounts usedLuts
      luts hnoeager,
    fun i hi h1 h2 h3 =>
      findBest_commit s size lutCount includedAccounts remainingAccounts usedLuts luts
        hnoeager i hi h1 h2 h3⟩

/-- C9 counterexample: a candidate pool whose only candidate does not improve
on the current size is not committed — selection stops with no table used,
although the candidate gives the smallest projected size of the pool. -/
theorem claim_C9_counterexample :
    ¬ projectedSize ⟨2000, 0⟩ 0 0 [] [] < MAX_TRANSACTION_SIZE ∧
      findBestLookupTables ⟨2000, 0⟩ 2001 0 0 [] [] [([], ⟨7, []⟩)] =
        { size := 2001, lookupTables := [], uniqueKeyCount := 0 } ∧
      (findBestLookupTables ⟨2000, 0⟩ 2001 0 0 [] [] [([], ⟨7, []⟩)]).lookupTables ≠
        [⟨7, []⟩] := by
  have heval : findBestLookupTables ⟨2000, 0⟩ 2001 0 0 [] [] [([], ⟨7, []⟩)] =
      { size := 2001, lookupTables := [], uniqueKeyCount := 0 } := by
    rw [findBestLookupTables, if_neg (by decide)]
    rw [show scanLuts ⟨2000, 0⟩ 0 0 [] [([], ⟨7, []⟩)] 0 ⟨2001, [], 0, 0⟩ =
      ScanResult.scanned ⟨2001, [], 0, 0⟩ from by decide]
    dsimp only
    rw [if_pos rfl]
    decide
  exact ⟨by decide, heval, by rw [heval]; decide⟩

/-- Witness for C9 (amended): the stop case at a concrete input. -/
theorem claim_C9_witness :
    findBestLookupTables ⟨2100, 0⟩ 2101 0 0 [] [] [([], ⟨9, []⟩)] =
      { size := 2101, lookupTables := [], uniqueKeyCount := 0 } := by
  have h := (claim_C9 ⟨2100, 0⟩ 2101 0 0 [] [] [([], ⟨9, []⟩)] (by decide)).1 (by decide)
  rw [h]
  decide

/-- Witness for C7 at a concrete pair of messages and signers. -/
theorem claim_C7_witness :
    ∃ A B,
      (signTransactionReturns ([[], []] : List (List Nat))
          ([⟨1, true, [0]⟩, ⟨2, false, [0, 1]⟩] : List SignerEntry)).2 = A ++ B ∧
      (∀ c ∈ A, c.requiresAsync = true) ∧
      (∀ c ∈ B, c.requiresAsync = false) ∧
      List.Perm
        (signTransactionReturns ([[], []] : List (List Nat))
          ([⟨1, true, [0]⟩, ⟨2, false, [0, 1]⟩] : List SignerEntry)).2
        (([⟨1, true, [0]⟩, ⟨2, false, [0, 1]⟩] : List SignerEntry).map
          (signCallOf ([[], []] : List (List Nat)).length)) ∧
      (∀ c ∈ (signTransactionReturns ([[], []] : List (List Nat))
          ([⟨1, true, [0]⟩, ⟨2, false, [0, 1]⟩] : List SignerEntry)).2,
        ∃ e ∈ ([⟨1, true, [0]⟩, ⟨2, false, [0, 1]⟩] : List SignerEntry),
          c = signCallOf ([[], []] : List (List Nat)).length e) :=
  claim_C7 ([[], []] : List (List Nat))
    ([⟨1, true, [0]⟩, ⟨2, false, [0, 1]⟩] : List SignerEntry)

end DataSource

